import Mathlib

/-!
# tapsim: table renderer, step recorder, witness builder and navigation counter

A shallow embedding of `output/output.go` and `script/execute.go`.

* Go strings are byte sequences: `GoString` is a list of byte values, `len(s)`
  is the list length and `s[i]` is a byte.
* A Go panic is an `Except.error` carrying the kind of panic.
* The opcode interpreter (`txscript.Engine`) is an external library: one run of
  it is represented by the list of step callbacks it would deliver and by the
  verdict it returns when no callback stops it.
-/

namespace Tapsim

/-- A Go `string`: a sequence of bytes (values below 256). -/
abbrev GoString := List Nat

/-- A Go `[]byte`. -/
abbrev Bytes := List Nat

/-- The bytes of an ASCII literal. -/
def str (s : String) : GoString := s.toList.map Char.toNat

/-- The ways the modelled code can stop without returning. -/
inductive Panic where
  /-- The explicit panic of FixedWidth, raised when the tag leaves no room. -/
  | tagTooLong
  /-- A Go runtime panic: string index out of range. -/
  | indexOutOfRange
  /-- A Go runtime panic: slice bounds out of range. -/
  | sliceOutOfRange
  /-- The loop budget of the model ran out (shown below never to happen). -/
  | fuel
  deriving DecidableEq, Repr

deriving instance DecidableEq for Except

/-- A Go `map[string]string` seen through its lookup `tags[s]`. -/
abbrev TagMap := GoString → Option GoString

/-- The empty (or nil) tag map. -/
def noTags : TagMap := fun _ => none

/-! ## output/output.go -/

/-- The Go conversion `string(b)` of a byte `b`: the UTF-8 encoding of the code
point `b`, one byte for ASCII and two bytes from 0x80 on. -/
def byteToString (b : Nat) : GoString :=
  if b < 128 then [b] else [192 + b / 64, 128 + b % 64]

/-- The Go index expression `s[k]`, which panics when `k` is out of range. -/
def goIndex (s : GoString) (k : Int) : Except Panic Nat :=
  if 0 ≤ k then
    match s[k.toNat]? with
    | some b => .ok b
    | none => .error .indexOutOfRange
  else .error .indexOutOfRange

/-- The tag suffix of FixedWidth: `fmt.Sprintf("(%s)", tag)` when `tags[s]` is
present, the empty string otherwise. -/
def tagSuffixOf (tags : TagMap) (s : GoString) : GoString :=
  match tags s with
  | some tag => str "(" ++ tag ++ str ")"
  | none => []

/-- One iteration of the loop of FixedWidth, at index `i`, with `w` the width
that remains after the tag suffix. -/
def fixedWidthStep (w : Int) (s : GoString) (fw : GoString) (i : Nat) :
    Except Panic GoString :=
  if (i : Int) < s.length then
    if (i : Int) ≥ w - 4 then do
      let b ← goIndex s ((s.length : Int) - (w - i))
      pure (fw ++ byteToString b)
    else if (i : Int) ≥ w - 7 then
      pure (fw ++ str ".")
    else do
      let b ← goIndex s i
      pure (fw ++ byteToString b)
  else
    pure (fw ++ str " ")

/-- `FixedWidth(w, s, tags)` of output.go. The width is a Go `int`; the
subtraction cannot wrap for the non-negative widths the program uses. -/
def FixedWidth (w : Int) (s : GoString) (tags : TagMap) : Except Panic GoString :=
  let tagSuffix := tagSuffixOf tags s
  let w := w - tagSuffix.length
  if w ≤ 0 then .error .tagTooLong
  else do
    let fw ← (List.range w.toNat).foldlM (fixedWidthStep w s) []
    pure (fw ++ tagSuffix)

/-- The constant `columnWidth` of output.go. -/
def columnWidth : Int := 40

/-- `strings.Repeat(s, n)` for a non-negative count. -/
def stringsRepeat (s : GoString) (n : Int) : GoString :=
  (List.replicate n.toNat s).flatten

/-- The entry of a column at `row`, the empty string below the column's end. -/
def cellAt (col : List GoString) (row : Nat) : GoString :=
  if row < col.length then col.getD row [] else []

/-- The `for` loop of ExecutionTable, started at `row` with the text `s` built so
far. `fuel` bounds the number of iterations of the model. -/
def executionTableLoop (pc : Int) (script stack altStack witness : List GoString)
    (tags : TagMap) : Nat → Nat → GoString → Except Panic GoString
  | 0, _, _ => .error .fuel
  | fuel + 1, row, s => do
    let scr := cellAt script row
    let stk := cellAt stack row
    let alt := cellAt altStack row
    let wit := cellAt witness row
    let pcC := if pc = (row : Int) then str ">" else str " "
    let c1 ← FixedWidth columnWidth scr tags
    let c2 ← FixedWidth columnWidth stk tags
    let c3 ← FixedWidth columnWidth alt tags
    let c4 ← FixedWidth columnWidth wit tags
    let s := s ++ (pcC ++ c1 ++ str "| " ++ c2 ++ str "| " ++ c3 ++ str "| " ++ c4 ++ str "\n")
    if scr = [] ∧ stk = [] ∧ alt = [] ∧ wit = [] then
      pure s
    else
      executionTableLoop pc script stack altStack witness tags fuel (row + 1) s

/-- The length of the longest of the four columns. -/
def longest (script stack altStack witness : List GoString) : Nat :=
  max (max script.length stack.length) (max altStack.length witness.length)

/-- `ExecutionTable(pc, script, stack, altStack, witness, tags)` of output.go.
The loop gets one iteration per position of the longest column plus one. -/
def ExecutionTable (pc : Int) (script stack altStack witness : List GoString)
    (tags : TagMap) : Except Panic GoString := do
  let fullWidth := 4 * (columnWidth + 2)
  let s := stringsRepeat (str "-") fullWidth
  let s := s ++ str "\n"
  let h1 ← FixedWidth columnWidth (str "script") tags
  let h2 ← FixedWidth columnWidth (str "stack") tags
  let h3 ← FixedWidth columnWidth (str "alt stack") tags
  let h4 ← FixedWidth columnWidth (str "witness") tags
  let s := s ++ (str " " ++ h1 ++ str "| " ++ h2 ++ str "| " ++ h3 ++ str "| " ++ h4 ++ str "\n")
  let s := s ++ stringsRepeat (str "-") fullWidth
  let s := s ++ str "\n"
  let s ← executionTableLoop pc script stack altStack witness tags
    (longest script stack altStack witness + 1) 0 s
  let s := s ++ stringsRepeat (str "-") (4 * (columnWidth + 2))
  let s := s ++ str "\n"
  pure s

/-- The digit `hextable[d]` of `encoding/hex`. -/
def hexDigit (d : Nat) : Nat := if d < 10 then 48 + d else 87 + d

/-- `hex.EncodeToString(b)`: two lower-case hex digits per byte. -/
def hexEncodeToString (b : Bytes) : GoString :=
  b.flatMap fun x => [hexDigit (x / 16), hexDigit (x % 16)]

/-- `StackToString(stack)` of output.go: topmost entry first, the empty element
shown as `<>`. -/
def StackToString (stack : List Bytes) : List GoString :=
  stack.reverse.map fun b => if b.length = 0 then str "<>" else hexEncodeToString b

/-- `VmScriptToString(vm, scriptIdx)` of output.go, given the text `disasm` that
`vm.DisasmScript(scriptIdx)` returns: the non-empty lines without their
9-byte position prefix. -/
def VmScriptToString (disasm : GoString) : Except Panic (List GoString) :=
  (disasm.splitOn 10).foldlM
    (fun ss s =>
      if s = [] then pure ss
      else if s.length < (str "01:0000: ").length then .error .sliceOutOfRange
      else pure (ss ++ [s.drop (str "01:0000: ").length]))
    []

/-! ## script/execute.go: StepScript -/

/-- The fields of `txscript.StepInfo` the callback reads. -/
structure StepInfo where
  ScriptIndex : Int
  OpcodeIndex : Int
  Stack : List Bytes
  AltStack : List Bytes
  deriving DecidableEq

/-- The errors StepScript returns: the package's own `errAbortVM`, or any other
error, which the interpreter or the setup function produced. -/
inductive VmError where
  | errAbortVM
  | failure (reason : GoString)
  deriving DecidableEq

/-- One run of the external interpreter on a fresh engine: the disassembly it
reports for each script index, the step callbacks it delivers as long as none
returns an error, and the error it returns itself after the last of them
(`none` for a script that verifies). -/
structure Engine where
  DisasmScript : Int → GoString
  steps : List StepInfo
  verdict : Option GoString

/-- The variables the step callback of StepScript closes over. -/
structure CallbackState where
  currentScript : Int
  stepCounter : Int
  finalState : GoString
  deriving DecidableEq

/-- The script index of the scriptSig. -/
def SCRIPT_SCRIPTSIG : Int := 0

/-- The script index of the scriptPubKey. -/
def SCRIPT_SCRIPTPUBKEY : Int := 1

/-- The script index of the witness script. -/
def SCRIPT_WITNESS_SCRIPT : Int := 2

/-- The closure assigned to `vm.StepCallback` in StepScript: the state after the
call and the error the callback returns. -/
def stepCallback (vm : Engine) (witness : List Bytes) (tags : TagMap) (numSteps : Int)
    (st : CallbackState) (step : StepInfo) : Except Panic (CallbackState × Option VmError) :=
  let st := { st with finalState := [] }
  if step.ScriptIndex = SCRIPT_SCRIPTSIG then
    pure ({ st with currentScript := step.ScriptIndex }, none)
  else if step.ScriptIndex = SCRIPT_SCRIPTPUBKEY ∧ st.currentScript = step.ScriptIndex then
    pure (st, none)
  else do
    let showWitness : List Bytes :=
      if step.ScriptIndex = SCRIPT_SCRIPTPUBKEY then witness else []
    let st :=
      if step.ScriptIndex = SCRIPT_WITNESS_SCRIPT ∧ st.currentScript ≠ step.ScriptIndex then
        { st with finalState := st.finalState ++ str "witness program verified OK\n" }
      else st
    let st := { st with stepCounter := st.stepCounter + 1, currentScript := step.ScriptIndex }
    let scriptStr ← VmScriptToString (vm.DisasmScript step.ScriptIndex)
    let table ← ExecutionTable step.OpcodeIndex scriptStr (StackToString step.Stack)
      (StackToString step.AltStack) (StackToString showWitness) tags
    let st := { st with finalState := st.finalState ++ table ++ str "\n" }
    if st.stepCounter ≥ numSteps then pure (st, some .errAbortVM) else pure (st, none)

/-- `vm.Execute()`: the interpreter delivers its callbacks in order, returns the
first error a callback returns, and its own verdict when none does. -/
def vmExecute (cb : CallbackState → StepInfo → Except Panic (CallbackState × Option VmError))
    (verdict : Option GoString) :
    CallbackState → List StepInfo → Except Panic (CallbackState × Option VmError)
  | st, [] => pure (st, verdict.map VmError.failure)
  | st, step :: rest => do
    let r ← cb st step
    match r.2 with
    | some e => pure (r.1, some e)
    | none => vmExecute cb verdict r.1 rest

/-- The values of currentScript, stepCounter and finalState at the start. -/
def initialState : CallbackState := ⟨-1, 0, []⟩

/-- `StepScript(setupFunc, witness, tags, numSteps)` of execute.go, given what
`setupFunc()` returns. -/
def StepScript (setupFunc : Except GoString Engine) (witness : List Bytes) (tags : TagMap)
    (numSteps : Int) : Except Panic (GoString × Option VmError) :=
  match setupFunc with
  | .error err => pure ([], some (.failure err))
  | .ok vm => do
    let r ← vmExecute (stepCallback vm witness tags numSteps) vm.verdict initialState vm.steps
    pure (r.1.finalState, r.2)

/-- The callbacks of a run that the callback retained: those at which it
incremented the step counter and built a table, up to the callback that
returned an error. -/
def retainedSteps (vm : Engine) (witness : List Bytes) (tags : TagMap) (numSteps : Int) :
    CallbackState → List StepInfo → List StepInfo
  | _, [] => []
  | st, step :: rest =>
    match stepCallback vm witness tags numSteps st step with
    | .error _ => []
    | .ok r =>
      let here := if r.1.stepCounter = st.stepCounter + 1 then [step] else []
      match r.2 with
      | some _ => here
      | none => here ++ retainedSteps vm witness tags numSteps r.1 rest

/-! ### The retained callbacks, in the words of the specification -/

/-- A retained callback together with what its text shows. -/
structure Snapshot where
  step : StepInfo
  note : Bool
  showWitness : Bool
  deriving DecidableEq

/-- The retained callbacks of a run: every witness-script callback, the first of
them annotated, and the first scriptPubKey callback, which carries the witness.
The flags say whether a scriptPubKey and a witness-script callback came before. -/
def retainedSnapshots : Bool → Bool → List StepInfo → List Snapshot
  | _, _, [] => []
  | seenPubKey, seenWitness, step :: rest =>
    if step.ScriptIndex = SCRIPT_WITNESS_SCRIPT then
      ⟨step, !seenWitness, false⟩ :: retainedSnapshots seenPubKey true rest
    else if step.ScriptIndex = SCRIPT_SCRIPTPUBKEY then
      if seenPubKey then retainedSnapshots true seenWitness rest
      else ⟨step, false, true⟩ :: retainedSnapshots true seenWitness rest
    else retainedSnapshots seenPubKey seenWitness rest

/-- The text built from a retained callback: the note, the table, a newline. -/
def snapshotText (vm : Engine) (witness : List Bytes) (tags : TagMap) (sn : Snapshot) :
    Except Panic GoString := do
  let scriptStr ← VmScriptToString (vm.DisasmScript sn.step.ScriptIndex)
  let table ← ExecutionTable sn.step.OpcodeIndex scriptStr (StackToString sn.step.Stack)
    (StackToString sn.step.AltStack) (StackToString (if sn.showWitness then witness else []))
    tags
  pure ((if sn.note then str "witness program verified OK\n" else []) ++ table ++ str "\n")

/-- Whether the text of a retained callback can be built without a panic. -/
def snapshotRenders (vm : Engine) (witness : List Bytes) (tags : TagMap) (sn : Snapshot) :
    Bool :=
  match snapshotText vm witness tags sn with
  | .ok _ => true
  | .error _ => false

/-- The callbacks arrive in phase order: scriptSig, scriptPubKey, witness script. -/
def PhaseOrder (steps : List StepInfo) : Prop :=
  (steps.map (·.ScriptIndex)).Pairwise (· ≤ ·)
    ∧ ∀ step ∈ steps, step.ScriptIndex = SCRIPT_SCRIPTSIG
        ∨ step.ScriptIndex = SCRIPT_SCRIPTPUBKEY ∨ step.ScriptIndex = SCRIPT_WITNESS_SCRIPT

instance (steps : List StepInfo) : Decidable (PhaseOrder steps) := by
  unfold PhaseOrder; infer_instance

/-! ## script/execute.go: Execute -/

/-- The closure `signFunc` of Execute as the witness generators see it: a key
name gives a signature or an error. -/
abbrev SignFunc := GoString → Except GoString Bytes

/-- A witness generator (`WitnessGen`): given the signing function it returns one
witness element or an error. -/
abbrev WitnessGen := SignFunc → Except GoString Bytes

/-- The witness stack Execute builds and hands to the interpreter, given what
`ctrlBlock.ToBytes()` returns. An error makes Execute return before the
interpreter is set up. -/
def combinedWitness (witnessGen : List WitnessGen) (signFunc : SignFunc) (pkScript : Bytes)
    (ctrlBlockToBytes : Except GoString Bytes) : Except GoString (List Bytes) := do
  let combinedWitness ← witnessGen.foldlM
    (fun acc gen => do
      let w ← gen signFunc
      pure (acc ++ [w]))
    []
  let ctrlBlockBytes ← ctrlBlockToBytes
  pure (combinedWitness ++ [pkScript, ctrlBlockBytes])

/-- What one `t.Read(bytes)` of the debug loop leaves behind: the count of bytes
read, whether it returned an error, and the three bytes of the buffer. -/
structure ReadResult where
  numRead : Int
  failed : Bool
  b0 : Nat
  b1 : Nat
  b2 : Nat
  deriving DecidableEq

/-- The value `currentStep` has before the first iteration of the debug loop. -/
def initialStep : Int := 1

/-- The value of `currentStep` after the input handling of one iteration of the
debug loop of Execute. On the paths that leave the loop (a read error, Ctrl+C)
the counter is not touched. A counter that grows by at most one per iteration
stays far below the range of a Go `int`. -/
def nextStep (interactive : Bool) (currentStep : Int) (r : ReadResult) : Int :=
  if interactive then
    if r.failed then currentStep
    else if r.numRead = 3 ∧ r.b0 = 27 ∧ r.b1 = 91 then
      if r.b2 = 65 then currentStep
      else if r.b2 = 66 then currentStep
      else if r.b2 = 67 then currentStep + 1
      else if r.b2 = 68 then
        let currentStep := currentStep - 1
        if currentStep < 1 then 1 else currentStep
      else currentStep
    else currentStep
  else currentStep + 1

/-- The escape sequence of the left arrow key, read in one piece. -/
def leftArrow : ReadResult := ⟨3, false, 27, 91, 68⟩

/-! ## Concrete inputs -/

/-- A tag map with one entry. -/
def oneTag (key tag : GoString) : TagMap := fun s => if s = key then some tag else none

/-- A tag of `n` letters. -/
def longTag (n : Nat) : GoString := List.replicate n 116

/-- The disassembly of a taproot spend whose leaf script is `2 2 ADD`. -/
def sampleDisasm (scriptIdx : Int) : GoString :=
  if scriptIdx = 1 then str "01:0000: OP_1\n01:0001: OP_DATA_32 0xaa\n"
  else if scriptIdx = 2 then str "02:0000: OP_2\n02:0001: OP_2\n02:0002: OP_ADD\n"
  else []

/-- The first callback of the scriptPubKey `OP_1 <key>`. -/
def pubKeyStep0 : StepInfo := ⟨1, 0, [], []⟩

/-- The second callback of the scriptPubKey. -/
def pubKeyStep1 : StepInfo := ⟨1, 1, [[1]], []⟩

/-- The first callback of the leaf script. -/
def leafStep0 : StepInfo := ⟨2, 0, [], []⟩

/-- The second callback of the leaf script. -/
def leafStep1 : StepInfo := ⟨2, 1, [[2]], []⟩

/-- A run that reaches the leaf script. -/
def sampleRun : Engine :=
  ⟨sampleDisasm, [pubKeyStep0, pubKeyStep1, leafStep0, leafStep1], none⟩

/-- A run in which the interpreter rejects the witness program after the two
scriptPubKey callbacks. -/
def rejectedRun : Engine :=
  ⟨sampleDisasm, [pubKeyStep0, pubKeyStep1], some (str "witness program mismatch")⟩

/-! ## Definitions used to state the properties -/

/-- The byte FixedWidth writes at column `i` of a cell whose content reaches that column -/
def overflowByte (r : Nat) (s : GoString) (i : Nat) : Nat :=
  if r ≤ i + 4 then s[s.length + i - r]?.getD 0
  else if r ≤ i + 7 then 46
  else s[i]?.getD 0

/-- Whether a cell renders: FixedWidth returns for it at the column width. -/
def renders (tags : TagMap) (c : GoString) : Bool :=
  match FixedWidth columnWidth c tags with
  | .ok _ => true
  | .error _ => false

/-- The width-normalised text of a cell that renders. -/
def cellText (tags : TagMap) (c : GoString) : GoString :=
  match FixedWidth columnWidth c tags with
  | .ok t => t
  | .error _ => []

/-- The table row of position `row`: the marker column, then the four
width-normalised cells with their separators. -/
def rowLine (pc : Int) (script stack altStack witness : List GoString) (tags : TagMap)
    (row : Nat) : GoString :=
  (if pc = (row : Int) then str ">" else str " ")
    ++ cellText tags (cellAt script row) ++ str "| "
    ++ cellText tags (cellAt stack row) ++ str "| "
    ++ cellText tags (cellAt altStack row) ++ str "| "
    ++ cellText tags (cellAt witness row) ++ str "\n"

/-- The rule of dashes that frames the table. -/
def ruleLine : GoString := stringsRepeat (str "-") (4 * (columnWidth + 2)) ++ str "\n"

/-- The header row of the table. -/
def headerLine (tags : TagMap) : GoString :=
  str " " ++ cellText tags (str "script") ++ str "| " ++ cellText tags (str "stack") ++ str "| "
    ++ cellText tags (str "alt stack") ++ str "| " ++ cellText tags (str "witness") ++ str "\n"

/-- How the variable currentScript reflects the callbacks seen so far, and what
phase order then says of the callbacks to come. -/
def Tracks (cs : Int) (seenPubKey seenWitness : Bool) (steps : List StepInfo) : Prop :=
  (seenWitness = true ↔ cs = 2) ∧ (seenWitness = false → (seenPubKey = true ↔ cs = 1))
    ∧ (cs = 1 → ∀ s ∈ steps, 1 ≤ s.ScriptIndex) ∧ (cs = 2 → ∀ s ∈ steps, 2 ≤ s.ScriptIndex)

/-- The number of scriptPubKey callbacks in a list of callbacks. -/
def countPubKey (steps : List StepInfo) : Nat :=
  (steps.filter fun s => decide (s.ScriptIndex = SCRIPT_SCRIPTPUBKEY)).length

/-! ## Lemmas -/

theorem foldlM_range_pieces (f : GoString → Nat → Except Panic GoString) (c : Nat → Nat)
    (R : Nat) (hf : ∀ i, i < R → ∀ fw, f fw i = .ok (fw ++ [c i])) (acc : GoString) :
    (List.range R).foldlM f acc = .ok (acc ++ (List.range R).map c) := by
  induction R with
  | zero => simp [pure, Except.pure]
  | succ k ih =>
    rw [List.range_succ, List.foldlM_append, ih (fun i hi => hf i (by omega))]
    simp [bind, Except.bind, hf k (by omega), pure, Except.pure]

theorem byteToString_ascii {b : Nat} (h : b < 128) : byteToString b = [b] := by
  simp [byteToString, h]

theorem goIndex_ok (s : GoString) (k : Nat) (h : k < s.length) :
    goIndex s (k : Int) = .ok (s[k]?.getD 0) := by
  simp [goIndex, List.getElem?_eq_getElem h]

theorem getD_ascii (s : GoString) (hascii : ∀ b ∈ s, b < 128) (k : Nat) (h : k < s.length) :
    s[k]?.getD 0 < 128 := by
  rw [List.getElem?_eq_getElem h]
  exact hascii _ (List.getElem_mem _)

theorem fixedWidthStep_overflow (r : Nat) (s : GoString) (hascii : ∀ b ∈ s, b < 128)
    (hlong : r ≤ s.length) (i : Nat) (hi : i < r) (fw : GoString) :
    fixedWidthStep (r : Int) s fw i = .ok (fw ++ [overflowByte r s i]) := by
  unfold fixedWidthStep overflowByte
  have h1 : (i : Int) < (s.length : Int) := by omega
  rw [if_pos h1]
  by_cases h4 : r ≤ i + 4
  · have h4' : (i : Int) ≥ (r : Int) - 4 := by omega
    rw [if_pos h4', if_pos h4]
    have e : (s.length : Int) - ((r : Int) - (i : Int)) = ((s.length + i - r : Nat) : Int) := by omega
    rw [e, goIndex_ok s _ (by omega)]
    have hb := getD_ascii s hascii (s.length + i - r) (by omega)
    simp [bind, Except.bind, pure, Except.pure, byteToString_ascii hb]
  · have h4' : ¬ (i : Int) ≥ (r : Int) - 4 := by omega
    rw [if_neg h4', if_neg h4]
    by_cases h7 : r ≤ i + 7
    · have h7' : (i : Int) ≥ (r : Int) - 7 := by omega
      rw [if_pos h7', if_pos h7]
      simp [pure, Except.pure, str]
    · have h7' : ¬ (i : Int) ≥ (r : Int) - 7 := by omega
      rw [if_neg h7', if_neg h7, goIndex_ok s _ (by omega)]
      have hb := getD_ascii s hascii i (by omega)
      simp [bind, Except.bind, pure, Except.pure, byteToString_ascii hb]

theorem map_overflowByte (r : Nat) (s : GoString) (hlong : r ≤ s.length) :
    (List.range r).map (overflowByte r s)
      = s.take (r - 7) ++ List.replicate (min 3 (r - 4)) 46 ++ s.drop (s.length - min 4 r) := by
  apply List.ext_getElem
  · simp; omega
  · intro i h1 h2
    simp at h1
    simp only [List.getElem_map, List.getElem_range, overflowByte]
    by_cases h4 : r ≤ i + 4
    · rw [if_pos h4, List.getElem_append_right (by simp; omega)]
      rw [List.getElem?_eq_getElem (show s.length + i - r < s.length by omega)]
      simp only [Option.getD_some, List.getElem_drop]
      congr 1
      simp
      omega
    · rw [if_neg h4]
      by_cases h7 : r ≤ i + 7
      · rw [if_pos h7, List.getElem_append_left (by simp; omega),
          List.getElem_append_right (by simp; omega)]
        simp
      · rw [if_neg h7, List.getElem_append_left (by simp; omega),
          List.getElem_append_left (by simp; omega)]
        simp [List.getElem?_eq_getElem (show i < s.length by omega)]

theorem FixedWidth_of_renders {tags : TagMap} {c : GoString} (h : renders tags c = true) :
    FixedWidth columnWidth c tags = .ok (cellText tags c) := by
  unfold renders at h
  unfold cellText
  split at h
  · next t ht => rw [ht]
  · exact absurd h (by simp)

theorem cellAt_nil_or_mem (col : List GoString) (row : Nat) :
    cellAt col row = [] ∨ cellAt col row ∈ col := by
  unfold cellAt
  split
  · next h =>
    right
    rw [List.getD_eq_getElem _ _ h]
    exact List.getElem_mem _
  · left; rfl

theorem cellAt_of_le (col : List GoString) (row : Nat) (h : col.length ≤ row) :
    cellAt col row = [] := by
  unfold cellAt
  rw [if_neg (by omega)]

theorem renders_cellAt (tags : TagMap) (col : List GoString) (row : Nat)
    (h0 : renders tags [] = true) (h : ∀ c ∈ col, renders tags c = true) :
    renders tags (cellAt col row) = true := by
  rcases cellAt_nil_or_mem col row with e | e
  · rw [e]; exact h0
  · exact h _ e

theorem executionTableLoop_rows (pc : Int) (script stack altStack witness : List GoString)
    (tags : TagMap) (h0 : renders tags [] = true)
    (h1 : ∀ c ∈ script, renders tags c = true) (h2 : ∀ c ∈ stack, renders tags c = true)
    (h3 : ∀ c ∈ altStack, renders tags c = true) (h4 : ∀ c ∈ witness, renders tags c = true)
    (hne : ∀ i, i < longest script stack altStack witness →
      ¬ (cellAt script i = [] ∧ cellAt stack i = [] ∧ cellAt altStack i = []
          ∧ cellAt witness i = []))
    (d : Nat) : ∀ (row : Nat) (s : GoString), row + d = longest script stack altStack witness →
      executionTableLoop pc script stack altStack witness tags (d + 1) row s
        = .ok (s ++ ((List.range' row (d + 1)).map
            (rowLine pc script stack altStack witness tags)).flatten) := by
  induction d with
  | zero =>
    intro row s hrow
    have hl : longest script stack altStack witness = row := by omega
    unfold longest at hl
    have e1 := cellAt_of_le script row (by omega)
    have e2 := cellAt_of_le stack row (by omega)
    have e3 := cellAt_of_le altStack row (by omega)
    have e4 := cellAt_of_le witness row (by omega)
    simp only [executionTableLoop, e1, e2, e3, e4, FixedWidth_of_renders h0]
    simp [bind, Except.bind, pure, Except.pure, rowLine, e1, e2, e3, e4]
  | succ k ih =>
    intro row s hrow
    have hlt : row < longest script stack altStack witness := by omega
    have hn := hne row hlt
    rw [executionTableLoop]
    simp only [FixedWidth_of_renders (renders_cellAt tags script row h0 h1),
      FixedWidth_of_renders (renders_cellAt tags stack row h0 h2),
      FixedWidth_of_renders (renders_cellAt tags altStack row h0 h3),
      FixedWidth_of_renders (renders_cellAt tags witness row h0 h4)]
    simp only [bind, Except.bind, pure, Except.pure]
    rw [if_neg hn, ih (row + 1) _ (by omega)]
    simp [List.range'_succ row, rowLine]

theorem stepCallback_scriptSig (vm : Engine) (witness : List Bytes) (tags : TagMap)
    (numSteps : Int) (st : CallbackState) (step : StepInfo) (h : step.ScriptIndex = 0) :
    stepCallback vm witness tags numSteps st step = .ok (⟨0, st.stepCounter, []⟩, none) := by
  simp [stepCallback, SCRIPT_SCRIPTSIG, h, pure, Except.pure]

theorem stepCallback_repeat (vm : Engine) (witness : List Bytes) (tags : TagMap)
    (numSteps : Int) (st : CallbackState) (step : StepInfo) (h : step.ScriptIndex = 1)
    (hc : st.currentScript = 1) :
    stepCallback vm witness tags numSteps st step = .ok (⟨1, st.stepCounter, []⟩, none) := by
  simp [stepCallback, SCRIPT_SCRIPTSIG, SCRIPT_SCRIPTPUBKEY, h, hc, pure, Except.pure]

theorem stepCallback_keep (vm : Engine) (witness : List Bytes) (tags : TagMap)
    (numSteps : Int) (st : CallbackState) (step : StepInfo) (note sw : Bool)
    (h0 : step.ScriptIndex ≠ 0) (h1 : ¬ (step.ScriptIndex = 1 ∧ st.currentScript = 1))
    (hnote : note = true ↔ (step.ScriptIndex = 2 ∧ st.currentScript ≠ 2))
    (hsw : sw = true ↔ step.ScriptIndex = 1) :
    stepCallback vm witness tags numSteps st step
      = (snapshotText vm witness tags ⟨step, note, sw⟩).bind fun t =>
          .ok (⟨step.ScriptIndex, st.stepCounter + 1, t⟩,
            if st.stepCounter + 1 ≥ numSteps then some .errAbortVM else none) := by
  unfold stepCallback snapshotText
  simp only [SCRIPT_SCRIPTSIG, SCRIPT_SCRIPTPUBKEY, SCRIPT_WITNESS_SCRIPT]
  rw [if_neg h0]
  have h1' : ¬ (step.ScriptIndex = 1 ∧ st.currentScript = step.ScriptIndex) := by
    intro h; exact h1 ⟨h.1, h.2.trans h.1⟩
  rw [if_neg h1']
  have e1 : (if step.ScriptIndex = 1 then witness else []) = (if sw = true then witness else []) := by
    by_cases hs : step.ScriptIndex = 1
    · rw [if_pos hs, if_pos (hsw.2 hs)]
    · rw [if_neg hs, if_neg (fun h => hs (hsw.1 h))]
  rw [e1]
  cases hv : VmScriptToString (vm.DisasmScript step.ScriptIndex) with
  | error e => rfl
  | ok scriptStr =>
    simp only [bind, Except.bind]
    cases ht : ExecutionTable step.OpcodeIndex scriptStr (StackToString step.Stack)
        (StackToString step.AltStack) (StackToString (if sw = true then witness else [])) tags with
    | error e => rfl
    | ok table =>
      simp only [pure, Except.pure, ge_iff_le]
      by_cases hn : step.ScriptIndex = 2 ∧ st.currentScript ≠ 2
      · have hn' : step.ScriptIndex = 2 ∧ st.currentScript ≠ step.ScriptIndex := ⟨hn.1, by rw [hn.1]; exact hn.2⟩
        rw [if_pos hn', if_pos (hnote.2 hn)]
        by_cases hc : numSteps ≤ st.stepCounter + 1 <;> simp [hc]
      · have hn' : ¬ (step.ScriptIndex = 2 ∧ st.currentScript ≠ step.ScriptIndex) := by
          intro h; exact hn ⟨h.1, by have := h.2; rw [h.1] at this; exact this⟩
        rw [if_neg hn', if_neg (fun h => hn (hnote.1 h))]
        by_cases hc : numSteps ≤ st.stepCounter + 1 <;> simp [hc]

theorem PhaseOrder_cons {step : StepInfo} {rest : List StepInfo}
    (h : PhaseOrder (step :: rest)) :
    (step.ScriptIndex = 0 ∨ step.ScriptIndex = 1 ∨ step.ScriptIndex = 2)
      ∧ (∀ s ∈ rest, step.ScriptIndex ≤ s.ScriptIndex) ∧ PhaseOrder rest := by
  obtain ⟨hp, hm⟩ := h
  rw [List.map_cons, List.pairwise_cons] at hp
  refine ⟨hm step (List.mem_cons_self _ _), ?_, hp.2, fun s hs => hm s (List.mem_cons_of_mem _ hs)⟩
  intro s hs
  exact hp.1 _ (List.mem_map_of_mem _ hs)

theorem Tracks_not_witness {cs : Int} {pk wit : Bool} {step : StepInfo} {rest : List StepInfo}
    (htr : Tracks cs pk wit (step :: rest)) (h : step.ScriptIndex < 2) :
    cs ≠ 2 ∧ wit = false := by
  obtain ⟨ta, -, -, td⟩ := htr
  have hcs2 : cs ≠ 2 := fun e => by
    have := td e step (List.mem_cons_self _ _); omega
  refine ⟨hcs2, ?_⟩
  cases wit with
  | false => rfl
  | true => exact absurd (ta.1 rfl) hcs2

/-- One callback of a run in phase order, seen from both sides: either it is
suppressed and the retained callbacks are those of the rest, or it is the next
retained callback and the callback builds its text. -/
theorem stepCallback_tracks (vm : Engine) (witness : List Bytes) (tags : TagMap)
    (numSteps : Int) (step : StepInfo) (rest : List StepInfo) (cs c : Int) (f : GoString)
    (pk wit : Bool) (htr : Tracks cs pk wit (step :: rest)) (hpo : PhaseOrder (step :: rest)) :
    (∃ (cs2 : Int) (pk2 : Bool),
        retainedSnapshots pk wit (step :: rest) = retainedSnapshots pk2 wit rest
          ∧ stepCallback vm witness tags numSteps ⟨cs, c, f⟩ step = .ok (⟨cs2, c, []⟩, none)
          ∧ Tracks cs2 pk2 wit rest)
      ∨ (∃ (sn : Snapshot) (pk2 wit2 : Bool), sn.step = step
          ∧ retainedSnapshots pk wit (step :: rest) = sn :: retainedSnapshots pk2 wit2 rest
          ∧ stepCallback vm witness tags numSteps ⟨cs, c, f⟩ step
              = (snapshotText vm witness tags sn).bind (fun t =>
                  .ok (⟨step.ScriptIndex, c + 1, t⟩,
                    if c + 1 ≥ numSteps then some .errAbortVM else none))
          ∧ Tracks step.ScriptIndex pk2 wit2 rest) := by
  obtain ⟨hidx, hle, -⟩ := PhaseOrder_cons hpo
  have htr0 := htr
  obtain ⟨ta, tb, tc, td⟩ := htr
  rcases hidx with h | h | h
  · -- a scriptSig callback
    obtain ⟨hcs2, hw⟩ := Tracks_not_witness htr0 (by omega)
    have hcs1 : cs ≠ 1 := fun e => by
      have := tc e step (List.mem_cons_self _ _); omega
    left
    refine ⟨0, pk, ?_, stepCallback_scriptSig _ _ _ _ _ _ h, ?_⟩
    · simp [retainedSnapshots, h, SCRIPT_WITNESS_SCRIPT, SCRIPT_SCRIPTPUBKEY]
    · exact ⟨by simp only [hw]; simp, fun _ => by simp only [tb hw]; omega,
        fun e => by omega, fun e => by omega⟩
  · obtain ⟨hcs2, hw⟩ := Tracks_not_witness htr0 (by omega)
    have hge : ∀ s ∈ rest, 1 ≤ s.ScriptIndex := fun s hs => by have := hle s hs; omega
    by_cases hcs : cs = 1
    · -- a repeated scriptPubKey callback
      have hp : pk = true := (tb hw).2 hcs
      left
      refine ⟨1, true, ?_, stepCallback_repeat _ _ _ _ _ _ h hcs, ?_⟩
      · simp [retainedSnapshots, h, SCRIPT_WITNESS_SCRIPT, SCRIPT_SCRIPTPUBKEY, hp]
      · exact ⟨by simp only [hw]; simp, fun _ => by simp, fun _ => hge, fun e => by omega⟩
    · -- the first scriptPubKey callback
      have hp : pk = false := by
        cases pk with
        | false => rfl
        | true => exact absurd ((tb hw).1 rfl) hcs
      right
      refine ⟨⟨step, false, true⟩, true, wit, rfl, ?_, ?_, ?_⟩
      · simp [retainedSnapshots, h, SCRIPT_WITNESS_SCRIPT, SCRIPT_SCRIPTPUBKEY, hp]
      · exact stepCallback_keep vm witness tags numSteps ⟨cs, c, f⟩ step false true
          (by omega) (fun e => hcs e.2) (by simp; omega) (by simp [h])
      · rw [h]
        exact ⟨by simp only [hw]; simp, fun _ => by simp, fun _ => hge, fun e => by omega⟩
  · -- a witness-script callback
    right
    refine ⟨⟨step, !wit, false⟩, pk, true, rfl, ?_, ?_, ?_⟩
    · simp [retainedSnapshots, h, SCRIPT_WITNESS_SCRIPT]
    · refine stepCallback_keep vm witness tags numSteps ⟨cs, c, f⟩ step (!wit) false
        (by omega) (fun e => by omega) ?_ (by simp [h])
      constructor
      · intro hn
        refine ⟨h, fun e => ?_⟩
        rw [ta.2 e] at hn
        simp at hn
      · intro hn
        cases wit with
        | false => rfl
        | true => exact absurd (ta.1 rfl) hn.2
    · rw [h]
      exact ⟨by simp, fun e => by simp at e, fun e => by omega,
        fun _ s hs => by have := hle s hs; omega⟩

theorem vmExecute_abort (vm : Engine) (witness : List Bytes) (tags : TagMap) (numSteps : Int) :
    ∀ (steps : List StepInfo) (cs c : Int) (f : GoString) (pk wit : Bool) (k : Nat)
      (sn : Snapshot),
      Tracks cs pk wit steps → PhaseOrder steps →
      (retainedSnapshots pk wit steps)[k]? = some sn → c + (k : Int) + 1 = numSteps →
      (∀ x ∈ (retainedSnapshots pk wit steps).take (k + 1),
        snapshotRenders vm witness tags x = true) →
      vmExecute (stepCallback vm witness tags numSteps) vm.verdict ⟨cs, c, f⟩ steps
        = (snapshotText vm witness tags sn).bind fun t =>
            .ok (⟨sn.step.ScriptIndex, numSteps, t⟩, some .errAbortVM) := by
  intro steps
  induction steps with
  | nil => intro cs c f pk wit k sn _ _ hk; simp [retainedSnapshots] at hk
  | cons step rest ih =>
    intro cs c f pk wit k sn htr hpo hk hc hr
    have hrest := (PhaseOrder_cons hpo).2.2
    rcases stepCallback_tracks vm witness tags numSteps step rest cs c f pk wit htr hpo with
      ⟨cs2, pk2, hs, hcb, htr2⟩ | ⟨sn0, pk2, wit2, hsn0, hs, hcb, htr2⟩
    · rw [hs] at hk hr
      rw [vmExecute, hcb]
      exact ih cs2 c [] pk2 wit k sn htr2 hrest hk hc hr
    · rw [hs] at hk hr
      have hhead := hr sn0 (by simp)
      rw [vmExecute, hcb]
      unfold snapshotRenders at hhead
      cases ht : snapshotText vm witness tags sn0 with
      | error e => rw [ht] at hhead; simp at hhead
      | ok t =>
        simp only [bind, Except.bind]
        cases k with
        | zero =>
          simp at hk
          subst hk
          have : numSteps ≤ c + 1 := by omega
          simp [this, ht, Except.bind, pure, Except.pure, hsn0]
          omega
        | succ k2 =>
          simp at hk
          have : ¬ numSteps ≤ c + 1 := by omega
          simp only [ge_iff_le, this, if_false]
          exact ih step.ScriptIndex (c + 1) t pk2 wit2 k2 sn htr2 hrest hk
            (by push_cast at hc; omega)
            (fun x hx => hr x (by rw [List.take_succ_cons]; exact List.mem_cons_of_mem _ hx))

theorem vmExecute_verdict (vm : Engine) (witness : List Bytes) (tags : TagMap) (numSteps : Int) :
    ∀ (steps : List StepInfo) (cs c : Int) (f : GoString) (pk wit : Bool),
      Tracks cs pk wit steps → PhaseOrder steps →
      c + ((retainedSnapshots pk wit steps).length : Int) < numSteps →
      ∀ r, vmExecute (stepCallback vm witness tags numSteps) vm.verdict ⟨cs, c, f⟩ steps = .ok r →
        r.2 = vm.verdict.map VmError.failure := by
  intro steps
  induction steps with
  | nil =>
    intro cs c f pk wit _ _ _ r hrun
    simp [vmExecute, pure, Except.pure] at hrun
    rw [← hrun]
  | cons step rest ih =>
    intro cs c f pk wit htr hpo hlen r hrun
    have hrest := (PhaseOrder_cons hpo).2.2
    rcases stepCallback_tracks vm witness tags numSteps step rest cs c f pk wit htr hpo with
      ⟨cs2, pk2, hs, hcb, htr2⟩ | ⟨sn0, pk2, wit2, hsn0, hs, hcb, htr2⟩
    · rw [hs] at hlen
      rw [vmExecute, hcb] at hrun
      exact ih cs2 c [] pk2 wit htr2 hrest hlen r hrun
    · rw [hs, List.length_cons] at hlen
      rw [vmExecute, hcb] at hrun
      cases ht : snapshotText vm witness tags sn0 with
      | error e => rw [ht] at hrun; simp [bind, Except.bind] at hrun
      | ok t =>
        rw [ht] at hrun
        have : ¬ numSteps ≤ c + 1 := by push_cast at hlen; omega
        simp only [bind, Except.bind, ge_iff_le, this, if_false] at hrun
        exact ih step.ScriptIndex (c + 1) t pk2 wit2 htr2 hrest
          (by push_cast at hlen; omega) r hrun

theorem retainedSteps_eq_take (vm : Engine) (witness : List Bytes) (tags : TagMap)
    (numSteps : Int) :
    ∀ (steps : List StepInfo) (cs c : Int) (f : GoString) (pk wit : Bool),
      Tracks cs pk wit steps → PhaseOrder steps → c < numSteps →
      (∀ x ∈ (retainedSnapshots pk wit steps).take (numSteps - c).toNat,
        snapshotRenders vm witness tags x = true) →
      retainedSteps vm witness tags numSteps ⟨cs, c, f⟩ steps
        = ((retainedSnapshots pk wit steps).take (numSteps - c).toNat).map (·.step) := by
  intro steps
  induction steps with
  | nil => intro cs c f pk wit _ _ _ _; simp [retainedSteps, retainedSnapshots]
  | cons step rest ih =>
    intro cs c f pk wit htr hpo hc hr
    have hrest := (PhaseOrder_cons hpo).2.2
    rcases stepCallback_tracks vm witness tags numSteps step rest cs c f pk wit htr hpo with
      ⟨cs2, pk2, hs, hcb, htr2⟩ | ⟨sn0, pk2, wit2, hsn0, hs, hcb, htr2⟩
    · rw [hs] at hr ⊢
      rw [retainedSteps, hcb]
      simp only []
      rw [if_neg (by omega), List.nil_append]
      exact ih cs2 c [] pk2 wit htr2 hrest hc hr
    · obtain ⟨m, hm⟩ : ∃ m : Nat, (numSteps - c).toNat = m + 1 :=
        ⟨(numSteps - c).toNat - 1, by omega⟩
      rw [hs, hm, List.take_succ_cons] at hr ⊢
      have hhead := hr sn0 (by simp)
      rw [retainedSteps, hcb]
      unfold snapshotRenders at hhead
      cases ht : snapshotText vm witness tags sn0 with
      | error e => rw [ht] at hhead; simp at hhead
      | ok t =>
        simp only [Except.bind, if_true, List.map_cons, hsn0]
        by_cases hstop : c + 1 ≥ numSteps
        · have hm0 : m = 0 := by omega
          simp [hstop, hm0]
        · have hm2 : (numSteps - (c + 1)).toNat = m := by omega
          simp only [hstop, if_false]
          rw [ih step.ScriptIndex (c + 1) t pk2 wit2 htr2 hrest (by omega)
            (by rw [hm2]; exact fun x hx => hr x (List.mem_cons_of_mem _ hx)), hm2]
          rfl

theorem Tracks_initial (steps : List StepInfo) : Tracks (-1) false false steps :=
  ⟨by simp, fun _ => by simp, fun e => by omega, fun e => by omega⟩

theorem countPubKey_append (a b : List StepInfo) :
    countPubKey (a ++ b) = countPubKey a + countPubKey b := by
  simp [countPubKey]

theorem retainedSteps_mem (vm : Engine) (witness : List Bytes) (tags : TagMap) (numSteps : Int) :
    ∀ (steps : List StepInfo) (st : CallbackState),
      ∀ x ∈ retainedSteps vm witness tags numSteps st steps, x ∈ steps := by
  intro steps
  induction steps with
  | nil => intro st x hx; simp [retainedSteps] at hx
  | cons step rest ih =>
    intro st x hx
    rw [retainedSteps] at hx
    cases hcb : stepCallback vm witness tags numSteps st step with
    | error e => rw [hcb] at hx; simp at hx
    | ok r =>
      rw [hcb] at hx
      dsimp only at hx
      have hhere : ∀ y ∈ (if r.1.stepCounter = st.stepCounter + 1 then [step] else []),
          y ∈ step :: rest := by
        intro y hy
        split at hy
        · simp at hy; simp [hy]
        · simp at hy
      cases he : r.2 with
      | some e => rw [he] at hx; exact hhere x hx
      | none =>
        rw [he] at hx
        rcases List.mem_append.1 hx with h | h
        · exact hhere x h
        · exact List.mem_cons_of_mem _ (ih r.1 x h)

theorem countPubKey_eq_zero (steps : List StepInfo) (h : ∀ s ∈ steps, s.ScriptIndex ≠ 1) :
    countPubKey steps = 0 := by
  unfold countPubKey
  rw [List.length_eq_zero, List.filter_eq_nil_iff]
  intro s hs
  simpa [SCRIPT_SCRIPTPUBKEY] using h s hs

theorem retainedSteps_after_pubKey (vm : Engine) (witness : List Bytes) (tags : TagMap)
    (numSteps : Int) :
    ∀ (steps : List StepInfo) (st : CallbackState), st.currentScript = 1 →
      (steps.map (·.ScriptIndex)).Pairwise (· ≤ ·) → (∀ s ∈ steps, 1 ≤ s.ScriptIndex) →
      countPubKey (retainedSteps vm witness tags numSteps st steps) = 0 := by
  intro steps
  induction steps with
  | nil => intro st _ _ _; simp [retainedSteps, countPubKey]
  | cons step rest ih =>
    intro st hcs hp hge
    rw [List.map_cons, List.pairwise_cons] at hp
    by_cases h : step.ScriptIndex = 1
    · rw [retainedSteps, stepCallback_repeat _ _ _ _ _ _ h hcs]
      simp only []
      rw [if_neg (by omega), List.nil_append]
      exact ih _ rfl hp.2 (fun s hs => hge s (List.mem_cons_of_mem _ hs))
    · apply countPubKey_eq_zero
      intro x hx
      have hx' := retainedSteps_mem vm witness tags numSteps _ _ x hx
      have h1 := hge step (List.mem_cons_self _ _)
      rcases List.mem_cons.1 hx' with e | e
      · rw [e]; exact h
      · have := hp.1 _ (List.mem_map_of_mem _ e)
        omega

theorem retainedSteps_countPubKey (vm : Engine) (witness : List Bytes) (tags : TagMap)
    (numSteps : Int) :
    ∀ (steps : List StepInfo) (st : CallbackState),
      (steps.map (·.ScriptIndex)).Pairwise (· ≤ ·) →
      countPubKey (retainedSteps vm witness tags numSteps st steps) ≤ 1 := by
  intro steps
  induction steps with
  | nil => intro st _; simp [retainedSteps, countPubKey]
  | cons step rest ih =>
    intro st hp
    have hp' := hp
    rw [List.map_cons, List.pairwise_cons] at hp'
    have hle : ∀ s ∈ rest, step.ScriptIndex ≤ s.ScriptIndex :=
      fun s hs => hp'.1 _ (List.mem_map_of_mem _ hs)
    by_cases h0 : step.ScriptIndex = 0
    · rw [retainedSteps, stepCallback_scriptSig _ _ _ _ _ _ h0]
      simp only []
      rw [if_neg (by omega), List.nil_append]
      exact ih _ hp'.2
    · by_cases h1 : step.ScriptIndex = 1
      · by_cases hcs : st.currentScript = 1
        · rw [retainedSteps_after_pubKey vm witness tags numSteps _ st hcs hp
            (fun s hs => by
              rcases List.mem_cons.1 hs with e | e
              · rw [e]; omega
              · have := hle s e; omega)]
          omega
        · rw [retainedSteps, stepCallback_keep vm witness tags numSteps st step false true
            h0 (fun e => hcs e.2) (by simp; omega) (by simp [h1])]
          cases ht : snapshotText vm witness tags ⟨step, false, true⟩ with
          | error e => simp [Except.bind, countPubKey]
          | ok t =>
            simp only [Except.bind, if_true]
            have hone : countPubKey [step] = 1 := by
              simp [countPubKey, SCRIPT_SCRIPTPUBKEY, h1]
            split
            · rw [hone]
            · rw [countPubKey_append, hone,
                retainedSteps_after_pubKey vm witness tags numSteps rest _ (by simp [h1]) hp'.2
                  (fun s hs => by have := hle s hs; omega)]
      · have hnote : ∃ note : Bool, note = true ↔
            (step.ScriptIndex = 2 ∧ st.currentScript ≠ 2) :=
          ⟨decide (step.ScriptIndex = 2 ∧ st.currentScript ≠ 2), by simp⟩
        obtain ⟨note, hnote⟩ := hnote
        rw [retainedSteps, stepCallback_keep vm witness tags numSteps st step note false
          h0 (fun e => h1 e.1) hnote (by simp [h1])]
        cases ht : snapshotText vm witness tags ⟨step, note, false⟩ with
        | error e => simp [Except.bind, countPubKey]
        | ok t =>
          simp only [Except.bind, if_true]
          have hzero : countPubKey [step] = 0 := by
            simp [countPubKey, SCRIPT_SCRIPTPUBKEY, h1]
          split
          · rw [hzero]; omega
          · rw [countPubKey_append, hzero, Nat.zero_add]
            exact ih _ hp'.2

theorem foldlM_generators (witnessGen : List WitnessGen) (signFunc : SignFunc) :
    ∀ (outputs : List Bytes),
      witnessGen.map (fun gen => gen signFunc) = outputs.map Except.ok →
      ∀ acc : List Bytes,
        witnessGen.foldlM
            (fun acc gen => do
              let w ← gen signFunc
              pure (acc ++ [w]))
            acc
          = (Except.ok (acc ++ outputs) : Except GoString (List Bytes)) := by
  induction witnessGen with
  | nil =>
    intro outputs h acc
    cases outputs with
    | nil => simp [pure, Except.pure]
    | cons o os => simp at h
  | cons gen rest ih =>
    intro outputs h acc
    cases outputs with
    | nil => simp at h
    | cons o os =>
      simp only [List.map_cons, List.cons.injEq] at h
      rw [List.foldlM_cons, h.1]
      show List.foldlM _ (acc ++ [o]) rest = _
      rw [ih os h.2 (acc ++ [o])]
      simp

theorem nextStep_bounds (interactive : Bool) (c : Int) (r : ReadResult) (h : 1 ≤ c) :
    1 ≤ nextStep interactive c r ∧ nextStep interactive c r ≤ c + 1 := by
  unfold nextStep
  dsimp only
  split_ifs <;> omega

theorem foldl_nextStep_bounds (interactive : Bool) (events : List ReadResult) :
    ∀ (c : Int) (n : Nat), 1 ≤ c → c ≤ 1 + (n : Int) →
      1 ≤ events.foldl (nextStep interactive) c
        ∧ events.foldl (nextStep interactive) c ≤ 1 + ((n + events.length : Nat) : Int) := by
  induction events with
  | nil => intro c n h1 h2; simpa using ⟨h1, h2⟩
  | cons r rest ih =>
    intro c n h1 h2
    have hb := nextStep_bounds interactive c r h1
    have := ih (nextStep interactive c r) (n + 1) hb.1 (by push_cast; omega)
    simp only [List.foldl_cons, List.length_cons]
    refine ⟨this.1, ?_⟩
    have h3 := this.2
    push_cast at h3 ⊢
    omega

theorem goIndex_ne_fuel (s : GoString) (k : Int) : goIndex s k ≠ .error .fuel := by
  unfold goIndex
  split
  · split <;> simp
  · simp

theorem fixedWidthStep_ne_fuel (w : Int) (s fw : GoString) (i : Nat) :
    fixedWidthStep w s fw i ≠ .error .fuel := by
  unfold fixedWidthStep
  split
  · split
    · cases h : goIndex s ((s.length : Int) - (w - i)) with
      | error e =>
        have := goIndex_ne_fuel s ((s.length : Int) - (w - i))
        rw [h] at this
        simpa [bind, Except.bind] using this
      | ok b => simp [bind, Except.bind, pure, Except.pure]
    · split
      · simp [pure, Except.pure]
      · cases h : goIndex s i with
        | error e =>
          have := goIndex_ne_fuel s i
          rw [h] at this
          simpa [bind, Except.bind] using this
        | ok b => simp [bind, Except.bind, pure, Except.pure]
  · simp [pure, Except.pure]

theorem foldlM_ne_fuel (f : GoString → Nat → Except Panic GoString)
    (hf : ∀ fw i, f fw i ≠ .error .fuel) :
    ∀ (l : List Nat) (acc : GoString), l.foldlM f acc ≠ .error .fuel := by
  intro l
  induction l with
  | nil => intro acc; simp [pure, Except.pure]
  | cons i rest ih =>
    intro acc
    rw [List.foldlM_cons]
    cases h : f acc i with
    | error e =>
      have := hf acc i
      rw [h] at this
      simpa [bind, Except.bind] using this
    | ok fw => simpa [bind, Except.bind] using ih fw

theorem FixedWidth_ne_fuel (w : Int) (s : GoString) (tags : TagMap) :
    FixedWidth w s tags ≠ .error .fuel := by
  unfold FixedWidth
  dsimp only
  split
  · simp
  · cases h : (List.range (w - ((tagSuffixOf tags s).length : Int)).toNat).foldlM
        (fixedWidthStep (w - ((tagSuffixOf tags s).length : Int)) s) [] with
    | error e =>
      have := foldlM_ne_fuel (fixedWidthStep (w - ((tagSuffixOf tags s).length : Int)) s)
        (fixedWidthStep_ne_fuel _ s)
        (List.range (w - ((tagSuffixOf tags s).length : Int)).toNat) []
      rw [h] at this
      simpa [bind, Except.bind] using this
    | ok fw => simp [bind, Except.bind, pure, Except.pure]

theorem executionTableLoop_ne_fuel (pc : Int) (script stack altStack witness : List GoString)
    (tags : TagMap) (d : Nat) :
    ∀ (row : Nat) (s : GoString), longest script stack altStack witness ≤ row + d →
      executionTableLoop pc script stack altStack witness tags (d + 1) row s
        ≠ .error .fuel := by
  induction d with
  | zero =>
    intro row s hrow
    unfold longest at hrow
    have e1 := cellAt_of_le script row (by omega)
    have e2 := cellAt_of_le stack row (by omega)
    have e3 := cellAt_of_le altStack row (by omega)
    have e4 := cellAt_of_le witness row (by omega)
    simp only [executionTableLoop, e1, e2, e3, e4]
    cases h : FixedWidth columnWidth [] tags with
    | error e =>
      have := FixedWidth_ne_fuel columnWidth [] tags
      rw [h] at this
      simpa [bind, Except.bind] using this
    | ok c => simp [bind, Except.bind, pure, Except.pure]
  | succ k ih =>
    intro row s hrow
    rw [executionTableLoop]
    have f1 := FixedWidth_ne_fuel columnWidth (cellAt script row) tags
    have f2 := FixedWidth_ne_fuel columnWidth (cellAt stack row) tags
    have f3 := FixedWidth_ne_fuel columnWidth (cellAt altStack row) tags
    have f4 := FixedWidth_ne_fuel columnWidth (cellAt witness row) tags
    cases h1 : FixedWidth columnWidth (cellAt script row) tags with
    | error e => rw [h1] at f1; simpa [bind, Except.bind] using f1
    | ok c1 =>
      cases h2 : FixedWidth columnWidth (cellAt stack row) tags with
      | error e => rw [h2] at f2; simpa [bind, Except.bind] using f2
      | ok c2 =>
        cases h3 : FixedWidth columnWidth (cellAt altStack row) tags with
        | error e => rw [h3] at f3; simpa [bind, Except.bind] using f3
        | ok c3 =>
          cases h4 : FixedWidth columnWidth (cellAt witness row) tags with
          | error e => rw [h4] at f4; simpa [bind, Except.bind] using f4
          | ok c4 =>
            simp only [bind, Except.bind, pure, Except.pure]
            split
            · simp
            · exact ih (row + 1) _ (by omega)

/-- The loop budget of the model of ExecutionTable is never used up. -/
theorem ExecutionTable_ne_fuel (pc : Int) (script stack altStack witness : List GoString)
    (tags : TagMap) :
    ExecutionTable pc script stack altStack witness tags ≠ .error .fuel := by
  unfold ExecutionTable
  have f1 := FixedWidth_ne_fuel columnWidth (str "script") tags
  have f2 := FixedWidth_ne_fuel columnWidth (str "stack") tags
  have f3 := FixedWidth_ne_fuel columnWidth (str "alt stack") tags
  have f4 := FixedWidth_ne_fuel columnWidth (str "witness") tags
  cases h1 : FixedWidth columnWidth (str "script") tags with
  | error e => rw [h1] at f1; simpa [bind, Except.bind] using f1
  | ok c1 =>
    cases h2 : FixedWidth columnWidth (str "stack") tags with
    | error e => rw [h2] at f2; simpa [bind, Except.bind] using f2
    | ok c2 =>
      cases h3 : FixedWidth columnWidth (str "alt stack") tags with
      | error e => rw [h3] at f3; simpa [bind, Except.bind] using f3
      | ok c3 =>
        cases h4 : FixedWidth columnWidth (str "witness") tags with
        | error e => rw [h4] at f4; simpa [bind, Except.bind] using f4
        | ok c4 =>
          simp only [bind, Except.bind, pure, Except.pure]
          have := executionTableLoop_ne_fuel pc script stack altStack witness tags
            (longest script stack altStack witness) 0
            (stringsRepeat (str "-") (4 * (columnWidth + 2)) ++ str "\n"
              ++ (str " " ++ c1 ++ str "| " ++ c2 ++ str "| " ++ c3 ++ str "| " ++ c4 ++ str "\n")
              ++ stringsRepeat (str "-") (4 * (columnWidth + 2)) ++ str "\n") (by omega)
          cases h : executionTableLoop pc script stack altStack witness tags
              (longest script stack altStack witness + 1) 0
              (stringsRepeat (str "-") (4 * (columnWidth + 2)) ++ str "\n"
                ++ (str " " ++ c1 ++ str "| " ++ c2 ++ str "| " ++ c3 ++ str "| " ++ c4 ++ str "\n")
                ++ stringsRepeat (str "-") (4 * (columnWidth + 2)) ++ str "\n") with
          | error e => rw [h] at this; simpa using this
          | ok t => simp

/-! ## The claims -/

/-- C1 counterexample: the sample run is in phase order and has 3 retained
callbacks; the third shows the stack entry `02`. With a tag of 38 letters on
`02` the tag suffix fills the 40 columns, FixedWidth raises its panic
`tag too long` while the third table is built, and StepScript with
`numSteps = 3` does not return errAbortVM. -/
theorem StepScript_panics_on_wide_tag :
    (1 : Int) ≤ 3 ∧ PhaseOrder sampleRun.steps
      ∧ (3 : Int) ≤ ((retainedSnapshots false false sampleRun.steps).length : Int)
      ∧ StepScript (.ok sampleRun) [[1, 2]] (oneTag (str "02") (longTag 38)) 3
          = .error .tagTooLong
      ∧ ¬ ∃ t, StepScript (.ok sampleRun) [[1, 2]] (oneTag (str "02") (longTag 38)) 3
          = .ok (t, some .errAbortVM) := by
  have h : StepScript (.ok sampleRun) [[1, 2]] (oneTag (str "02") (longTag 38)) 3
      = .error .tagTooLong := by decide
  refine ⟨by decide, by decide, by decide, h, ?_⟩
  rintro ⟨t, ht⟩
  rw [h] at ht
  cases ht

/-- C1, amended: for callbacks in phase order and `numSteps ≥ 1`, in a run where
the callback returns at each of the first `numSteps` retained callbacks (it
builds their text without a panic), StepScript returns errAbortVM if and only
if the run has at least `numSteps` retained callbacks; the text it then returns
is the one built from the `numSteps`-th retained callback; and the callbacks at
which the callback incremented its counter are the first `numSteps` retained
callbacks, none after them. -/
theorem StepScript_stops_at_numSteps (vm : Engine) (witness : List Bytes) (tags : TagMap)
    (numSteps : Int) (hn : 1 ≤ numSteps) (hpo : PhaseOrder vm.steps)
    (hr : ∀ x ∈ (retainedSnapshots false false vm.steps).take numSteps.toNat,
      snapshotRenders vm witness tags x = true) :
    ((∃ t, StepScript (.ok vm) witness tags numSteps = .ok (t, some .errAbortVM))
        ↔ numSteps ≤ ((retainedSnapshots false false vm.steps).length : Int))
      ∧ (∀ sn, (retainedSnapshots false false vm.steps)[(numSteps - 1).toNat]? = some sn →
          StepScript (.ok vm) witness tags numSteps
            = (snapshotText vm witness tags sn).map fun t => (t, some .errAbortVM))
      ∧ retainedSteps vm witness tags numSteps initialState vm.steps
          = ((retainedSnapshots false false vm.steps).take numSteps.toNat).map (·.step) := by
  have key : ∀ sn, (retainedSnapshots false false vm.steps)[(numSteps - 1).toNat]? = some sn →
      StepScript (.ok vm) witness tags numSteps
        = (snapshotText vm witness tags sn).map fun t => (t, some .errAbortVM) := by
    intro sn hsn
    have e : (numSteps - 1).toNat + 1 = numSteps.toNat := by omega
    have := vmExecute_abort vm witness tags numSteps vm.steps (-1) 0 [] false false
      (numSteps - 1).toNat sn (Tracks_initial _) hpo hsn (by omega) (by rw [e]; exact hr)
    unfold StepScript initialState
    simp only [this]
    cases snapshotText vm witness tags sn <;> rfl
  refine ⟨⟨?_, ?_⟩, key, ?_⟩
  rotate_left 2
  · have := retainedSteps_eq_take vm witness tags numSteps vm.steps (-1) 0 [] false false
      (Tracks_initial _) hpo (by omega) (by simpa using hr)
    simpa [initialState] using this
  · rintro ⟨t, ht⟩
    by_contra hlt
    unfold StepScript initialState at ht
    dsimp only at ht
    cases hrun : vmExecute (stepCallback vm witness tags numSteps) vm.verdict ⟨-1, 0, []⟩
        vm.steps with
    | error e => rw [hrun] at ht; simp [bind, Except.bind] at ht
    | ok r =>
      have hv := vmExecute_verdict vm witness tags numSteps vm.steps (-1) 0 [] false false
        (Tracks_initial _) hpo (by omega) r hrun
      rw [hrun] at ht
      simp only [bind, Except.bind, pure, Except.pure, Except.ok.injEq, Prod.mk.injEq] at ht
      rw [hv] at ht
      cases hvd : vm.verdict <;> simp [hvd] at ht
  · intro hle
    have hlt : (numSteps - 1).toNat < (retainedSnapshots false false vm.steps).length := by omega
    have hsn := List.getElem?_eq_getElem hlt
    have hmem : (retainedSnapshots false false vm.steps)[(numSteps - 1).toNat]
        ∈ (retainedSnapshots false false vm.steps).take numSteps.toNat := by
      rw [List.mem_take_iff_getElem]
      exact ⟨(numSteps - 1).toNat, by omega, rfl⟩
    have hok := hr _ hmem
    rw [key _ hsn]
    unfold snapshotRenders at hok
    cases ht : snapshotText vm witness tags
        (retainedSnapshots false false vm.steps)[(numSteps - 1).toNat] with
    | error e => rw [ht] at hok; simp at hok
    | ok t => exact ⟨t, rfl⟩

/-- C1 witness: the sample run stopped at its second retained callback, the first
callback of the leaf script. -/
theorem StepScript_stops_at_numSteps_witness :
    (1 ≤ (2 : Int) ∧ PhaseOrder sampleRun.steps
      ∧ ∀ x ∈ (retainedSnapshots false false sampleRun.steps).take (2 : Int).toNat,
          snapshotRenders sampleRun [[1, 2]] noTags x = true)
    ∧ (((∃ t, StepScript (.ok sampleRun) [[1, 2]] noTags 2 = .ok (t, some .errAbortVM))
          ↔ (2 : Int) ≤ ((retainedSnapshots false false sampleRun.steps).length : Int))
        ∧ (∀ sn, (retainedSnapshots false false sampleRun.steps)[((2 : Int) - 1).toNat]? = some sn →
            StepScript (.ok sampleRun) [[1, 2]] noTags 2
              = (snapshotText sampleRun [[1, 2]] noTags sn).map
                  fun t => (t, some .errAbortVM))
        ∧ retainedSteps sampleRun [[1, 2]] noTags 2 initialState sampleRun.steps
            = ((retainedSnapshots false false sampleRun.steps).take (2 : Int).toNat).map
                (·.step)) :=
  ⟨⟨by decide, by decide, by decide⟩,
    StepScript_stops_at_numSteps sampleRun [[1, 2]] noTags 2 (by decide) (by decide)
      (by decide)⟩

/-- C2: in the rejected run the first scriptPubKey callback is retained and
renders to a non-empty text, the second one is suppressed, and the interpreter
then fails before the counter reaches 2; StepScript returns the empty text with
the failure, not the text of the retained callback. -/
theorem StepScript_blank_after_suppressed_callback :
    retainedSteps rejectedRun [[1, 2]] noTags 2 initialState rejectedRun.steps = [pubKeyStep0]
      ∧ snapshotRenders rejectedRun [[1, 2]] noTags ⟨pubKeyStep0, false, true⟩ = true
      ∧ snapshotText rejectedRun [[1, 2]] noTags ⟨pubKeyStep0, false, true⟩ ≠ .ok []
      ∧ StepScript (.ok rejectedRun) [[1, 2]] noTags 2
          = .ok ([], some (.failure (str "witness program mismatch"))) := by
  refine ⟨by decide, by decide, by decide, by decide⟩

/-- C3: in a run of the interpreter, which executes the scripts one after the
other so that the script index never decreases from one callback to the next,
at most one scriptPubKey callback is retained (increments the step counter and
produces a table), however many are delivered. -/
theorem scriptPubKey_retained_at_most_once (vm : Engine) (witness : List Bytes)
    (tags : TagMap) (numSteps : Int)
    (hphase : (vm.steps.map (·.ScriptIndex)).Pairwise (· ≤ ·)) :
    countPubKey (retainedSteps vm witness tags numSteps initialState vm.steps) ≤ 1 :=
  retainedSteps_countPubKey vm witness tags numSteps vm.steps initialState hphase

/-- C3 witness: the sample run delivers two scriptPubKey callbacks. -/
theorem scriptPubKey_retained_at_most_once_witness :
    (sampleRun.steps.map (·.ScriptIndex)).Pairwise (· ≤ ·)
      ∧ countPubKey (retainedSteps sampleRun [[1, 2]] noTags 4 initialState sampleRun.steps) ≤ 1 :=
  ⟨by decide, scriptPubKey_retained_at_most_once sampleRun [[1, 2]] noTags 4 (by decide)⟩

/-- C4: the cell `<>` with a tag of 33 letters has a tag suffix of 35 bytes,
shorter than the column width 40, yet FixedWidth returns no string: it indexes
the cell at -2 and panics. -/
theorem FixedWidth_short_cell_long_tag_panics :
    ((tagSuffixOf (oneTag (str "<>") (longTag 33)) (str "<>")).length : Int) < columnWidth
      ∧ FixedWidth columnWidth (str "<>") (oneTag (str "<>") (longTag 33))
          = .error .indexOutOfRange := by
  refine ⟨by decide, by decide⟩

/-- C5: a cell of 34 bytes fits the 40 columns, but FixedWidth replaces its last
byte by a dot before it pads. -/
theorem FixedWidth_fitting_cell_is_altered :
    FixedWidth 40 (List.replicate 34 97) noTags
        = .ok (List.replicate 33 97 ++ str "." ++ List.replicate 6 32)
      ∧ FixedWidth 40 (List.replicate 34 97) noTags
        ≠ .ok (List.replicate 34 97 ++ List.replicate (40 - 34) 32
            ++ tagSuffixOf noTags (List.replicate 34 97)) := by
  refine ⟨by decide, by decide⟩

/-- C6 counterexample: with 3 columns the cell `abcde` overflows and is rendered
as its last 3 bytes `cde`, so no prefix and dots followed by the last 4 bytes
fit the width 3. And the cell made of the two bytes of a UTF-8 `é` and 40
letters `a` overflows 40 columns and is rendered in 42 bytes, because
`string(s[i])` turns each byte from 0x80 on into two bytes. -/
theorem FixedWidth_overflow_not_as_stated :
    ((0 : Int) < 3 - ((tagSuffixOf noTags (str "abcde")).length : Int)
      ∧ ((str "abcde").length : Int) > 3 - ((tagSuffixOf noTags (str "abcde")).length : Int)
      ∧ FixedWidth 3 (str "abcde") noTags = .ok (str "cde")
      ∧ ¬ ∃ (p : GoString) (k : Nat), p <+: str "abcde"
          ∧ FixedWidth 3 (str "abcde") noTags
              = .ok (p ++ List.replicate k 46
                  ++ (str "abcde").drop ((str "abcde").length - 4)
                  ++ tagSuffixOf noTags (str "abcde"))
          ∧ ((p ++ List.replicate k 46
                  ++ (str "abcde").drop ((str "abcde").length - 4)).length : Int)
              = 3 - ((tagSuffixOf noTags (str "abcde")).length : Int))
    ∧ ((0 : Int) < 40 - ((tagSuffixOf noTags ([195, 169] ++ List.replicate 40 97)).length : Int)
      ∧ ((([195, 169] ++ List.replicate 40 97 : GoString).length : Int)
          > 40 - ((tagSuffixOf noTags ([195, 169] ++ List.replicate 40 97)).length : Int))
      ∧ FixedWidth 40 ([195, 169] ++ List.replicate 40 97) noTags
          = .ok ([195, 131, 194, 169] ++ List.replicate 31 97 ++ str "..." ++ str "aaaa")
      ∧ ¬ ∃ (p : GoString) (k : Nat), p <+: [195, 169] ++ List.replicate 40 97
          ∧ FixedWidth 40 ([195, 169] ++ List.replicate 40 97) noTags
              = .ok (p ++ List.replicate k 46
                  ++ ([195, 169] ++ List.replicate 40 97 : GoString).drop
                      (([195, 169] ++ List.replicate 40 97 : GoString).length - 4)
                  ++ tagSuffixOf noTags ([195, 169] ++ List.replicate 40 97))
          ∧ ((p ++ List.replicate k 46
                  ++ ([195, 169] ++ List.replicate 40 97 : GoString).drop
                      (([195, 169] ++ List.replicate 40 97 : GoString).length - 4)).length : Int)
              = 40 - ((tagSuffixOf noTags ([195, 169] ++ List.replicate 40 97)).length : Int)) := by
  have hA : FixedWidth 3 (str "abcde") noTags = .ok (str "cde") := by decide
  have hB : FixedWidth 40 ([195, 169] ++ List.replicate 40 97) noTags
      = .ok ([195, 131, 194, 169] ++ List.replicate 31 97 ++ str "..." ++ str "aaaa") := by
    decide
  refine ⟨⟨by decide, by decide, hA, ?_⟩, ⟨by decide, by decide, hB, ?_⟩⟩
  · rintro ⟨p, k, -, -, hl⟩
    simp [str, tagSuffixOf, noTags] at hl
    omega
  · rintro ⟨p, k, -, hp, hl⟩
    rw [hB] at hp
    have hlen := congrArg (fun e => (e.toOption.map List.length)) hp
    simp [Except.toOption, str, tagSuffixOf, noTags] at hlen hl
    omega

/-- C6, amended: for a cell `s` of ASCII bytes that is longer than the width `r`
that remains after the tag suffix, `r > 0`, FixedWidth returns the first `r - 7`
bytes of `s`, then `min 3 (r - 4)` dots, then the last `min 4 r` bytes of `s`,
then the tag suffix; the part before the tag suffix has length `r`. -/
theorem FixedWidth_overflowing_cell (w : Int) (s : GoString) (tags : TagMap) (r : Nat)
    (hr : (r : Int) = w - (tagSuffixOf tags s).length) (hpos : 0 < r)
    (hascii : ∀ b ∈ s, b < 128) (hlong : r < s.length) :
    FixedWidth w s tags
        = .ok (s.take (r - 7) ++ List.replicate (min 3 (r - 4)) 46
            ++ s.drop (s.length - min 4 r) ++ tagSuffixOf tags s)
      ∧ (s.take (r - 7) ++ List.replicate (min 3 (r - 4)) 46
            ++ s.drop (s.length - min 4 r)).length = r := by
  constructor
  · unfold FixedWidth
    simp only [← hr]
    rw [if_neg (by omega)]
    simp only [Int.toNat_ofNat]
    rw [foldlM_range_pieces _ (overflowByte r s) r
      (fun i hi fw => fixedWidthStep_overflow r s hascii (by omega) i hi fw)]
    simp [bind, Except.bind, pure, Except.pure, map_overflowByte r s (by omega)]
  · simp; omega

/-- C6 witness: a cell of 48 hex digits in a column of 40. -/
theorem FixedWidth_overflowing_cell_witness :
    (((40 : Nat) : Int) = 40 - ((tagSuffixOf noTags
          (str "0123456789abcdef0123456789abcdef0123456789abcdef")).length : Int)
      ∧ 0 < 40
      ∧ (∀ b ∈ str "0123456789abcdef0123456789abcdef0123456789abcdef", b < 128)
      ∧ 40 < (str "0123456789abcdef0123456789abcdef0123456789abcdef").length)
    ∧ (FixedWidth 40 (str "0123456789abcdef0123456789abcdef0123456789abcdef") noTags
        = .ok ((str "0123456789abcdef0123456789abcdef0123456789abcdef").take (40 - 7)
            ++ List.replicate (min 3 (40 - 4)) 46
            ++ (str "0123456789abcdef0123456789abcdef0123456789abcdef").drop
                ((str "0123456789abcdef0123456789abcdef0123456789abcdef").length - min 4 40)
            ++ tagSuffixOf noTags (str "0123456789abcdef0123456789abcdef0123456789abcdef"))
      ∧ ((str "0123456789abcdef0123456789abcdef0123456789abcdef").take (40 - 7)
            ++ List.replicate (min 3 (40 - 4)) 46
            ++ (str "0123456789abcdef0123456789abcdef0123456789abcdef").drop
                ((str "0123456789abcdef0123456789abcdef0123456789abcdef").length
                  - min 4 40)).length = 40) :=
  ⟨⟨by decide, by decide, by decide, by decide⟩,
    FixedWidth_overflowing_cell 40 (str "0123456789abcdef0123456789abcdef0123456789abcdef")
      noTags 40 (by decide) (by decide) (by decide) (by decide)⟩

/-- C7: the remaining width is positive in both calls (4 of 4 columns without a
tag, and 40 - 36 = 4 with a tag of 34 letters), and both panic with an index
out of range instead of returning. -/
theorem FixedWidth_positive_width_panics :
    (0 : Int) < 4 - ((tagSuffixOf noTags (str "a")).length : Int)
      ∧ FixedWidth 4 (str "a") noTags = .error .indexOutOfRange
      ∧ (0 : Int) < columnWidth - ((tagSuffixOf (oneTag (str "01") (longTag 34)) (str "01")).length : Int)
      ∧ FixedWidth columnWidth (str "01") (oneTag (str "01") (longTag 34))
          = .error .indexOutOfRange := by
  refine ⟨by decide, by decide, by decide, by decide⟩

set_option maxRecDepth 20000 in
/-- C8 counterexample: the script column holds an empty string and then `x`, the
other columns are empty, so the longest list has 2 positions. The body of the
table is the single row of position 0: the row of position 1 would show the
byte `x`, and the table holds no byte `x` at all. -/
theorem ExecutionTable_ends_at_blank_row :
    longest [[], str "x"] [] [] [] = 2
      ∧ ExecutionTable 0 [[], str "x"] [] [] [] noTags
          = .ok (ruleLine ++ headerLine noTags ++ ruleLine
              ++ rowLine 0 [[], str "x"] [] [] [] noTags 0 ++ ruleLine)
      ∧ 120 ∈ rowLine 0 [[], str "x"] [] [] [] noTags 1
      ∧ 120 ∉ ruleLine ++ headerLine noTags ++ ruleLine
              ++ rowLine 0 [[], str "x"] [] [] [] noTags 0 ++ ruleLine := by
  refine ⟨by decide, by decide, by decide, by decide⟩

/-- C8, amended: when every cell renders (FixedWidth returns for the four header
names, the blank cell and every entry of the four lists) and every position
below the longest list holds a non-empty entry in at least one list, the table
is the rule, the header row, the rule, then one row for every position below
the longest list length, in order, row `i` holding the width-normalised `i`-th
entry of each list (a blank cell for a shorter list), then one all-blank row,
then the rule. -/
theorem ExecutionTable_rows (pc : Int) (script stack altStack witness : List GoString)
    (tags : TagMap)
    (hrender : ∀ c ∈ [str "script", str "stack", str "alt stack", str "witness", []]
        ++ script ++ stack ++ altStack ++ witness, renders tags c = true)
    (hne : ∀ i, i < longest script stack altStack witness →
      ¬ (cellAt script i = [] ∧ cellAt stack i = [] ∧ cellAt altStack i = []
          ∧ cellAt witness i = [])) :
    ExecutionTable pc script stack altStack witness tags
      = .ok (ruleLine ++ headerLine tags ++ ruleLine
          ++ ((List.range (longest script stack altStack witness + 1)).map
              (rowLine pc script stack altStack witness tags)).flatten
          ++ ruleLine) := by
  have hh1 := hrender (str "script") (by simp)
  have hh2 := hrender (str "stack") (by simp)
  have hh3 := hrender (str "alt stack") (by simp)
  have hh4 := hrender (str "witness") (by simp)
  have h0 := hrender [] (by simp)
  have h1 : ∀ c ∈ script, renders tags c = true := fun c hc => hrender c (by simp [hc])
  have h2 : ∀ c ∈ stack, renders tags c = true := fun c hc => hrender c (by simp [hc])
  have h3 : ∀ c ∈ altStack, renders tags c = true := fun c hc => hrender c (by simp [hc])
  have h4 : ∀ c ∈ witness, renders tags c = true := fun c hc => hrender c (by simp [hc])
  unfold ExecutionTable
  simp only [FixedWidth_of_renders hh1, FixedWidth_of_renders hh2, FixedWidth_of_renders hh3,
    FixedWidth_of_renders hh4]
  simp only [bind, Except.bind, pure, Except.pure]
  rw [executionTableLoop_rows pc script stack altStack witness tags h0 h1 h2 h3 h4 hne
    (longest script stack altStack witness) 0 _ (by omega)]
  simp [ruleLine, headerLine, List.range_eq_range']

set_option maxRecDepth 8000 in
/-- C8 witness: a table of three positions with the marker on the second. -/
theorem ExecutionTable_rows_witness :
    ((∀ c ∈ [str "script", str "stack", str "alt stack", str "witness", []]
          ++ [str "OP_2", str "OP_ADD"] ++ [str "02"] ++ [] ++ [str "<>", str "aa", str "bb"],
        renders noTags c = true)
      ∧ ∀ i, i < longest [str "OP_2", str "OP_ADD"] [str "02"] [] [str "<>", str "aa", str "bb"] →
        ¬ (cellAt [str "OP_2", str "OP_ADD"] i = [] ∧ cellAt [str "02"] i = []
            ∧ cellAt [] i = [] ∧ cellAt [str "<>", str "aa", str "bb"] i = []))
    ∧ ExecutionTable 1 [str "OP_2", str "OP_ADD"] [str "02"] []
          [str "<>", str "aa", str "bb"] noTags
        = .ok (ruleLine ++ headerLine noTags ++ ruleLine
            ++ ((List.range (longest [str "OP_2", str "OP_ADD"] [str "02"] []
                    [str "<>", str "aa", str "bb"] + 1)).map
                (rowLine 1 [str "OP_2", str "OP_ADD"] [str "02"] []
                  [str "<>", str "aa", str "bb"] noTags)).flatten
            ++ ruleLine) :=
  ⟨⟨by decide, by decide⟩,
    ExecutionTable_rows 1 [str "OP_2", str "OP_ADD"] [str "02"] []
      [str "<>", str "aa", str "bb"] noTags (by decide) (by decide)⟩

/-- C9: when generator `i` returns `outputs[i]` for every `i` (all generators
succeed) and the control block serialises to `ctrlBlockBytes`, the witness stack
is the outputs in the order of the generators, then `pkScript`, then
`ctrlBlockBytes`, and its length is the number of generators plus 2. -/
theorem combinedWitness_layout (witnessGen : List WitnessGen) (signFunc : SignFunc)
    (pkScript ctrlBlockBytes : Bytes) (outputs : List Bytes)
    (hgen : witnessGen.map (fun gen => gen signFunc) = outputs.map Except.ok) :
    combinedWitness witnessGen signFunc pkScript (.ok ctrlBlockBytes)
        = .ok (outputs ++ [pkScript, ctrlBlockBytes])
      ∧ (outputs ++ [pkScript, ctrlBlockBytes]).length = witnessGen.length + 2 := by
  have hlen : outputs.length = witnessGen.length := by
    have := congrArg List.length hgen
    simpa using this.symm
  refine ⟨?_, by simp [hlen]⟩
  unfold combinedWitness
  rw [foldlM_generators witnessGen signFunc outputs hgen []]
  simp [bind, Except.bind, pure, Except.pure]

/-- C9 witness: a constant push and a signature push. -/
theorem combinedWitness_layout_witness :
    ([fun _ => Except.ok [1], fun sign => sign (str "alice")].map
        (fun (gen : WitnessGen) => gen (fun _ => Except.ok [7, 7]))
        = [[1], [7, 7]].map Except.ok)
    ∧ (combinedWitness [fun _ => Except.ok [1], fun sign => sign (str "alice")]
          (fun _ => Except.ok [7, 7]) [81] (.ok [192, 5])
        = .ok ([[1], [7, 7]] ++ [[81], [192, 5]])
      ∧ ([[1], [7, 7]] ++ [[81], [192, 5]]).length
        = [fun _ => Except.ok [1], fun (sign : SignFunc) => sign (str "alice")].length + 2) :=
  ⟨rfl, combinedWitness_layout [fun _ => Except.ok [1], fun sign => sign (str "alice")]
      (fun _ => Except.ok [7, 7]) [81] [192, 5] [[1], [7, 7]] rfl⟩

/-- C10: the step counter starts at 1; after any sequence of iterations of the
debug loop, interactive (any key or read result) or batch, it is at least 1 and
at most 1 plus the number of iterations; a left arrow at 1 leaves it at 1. -/
theorem currentStep_at_least_one (interactive : Bool) (events : List ReadResult) :
    initialStep = 1
      ∧ 1 ≤ events.foldl (nextStep interactive) initialStep
      ∧ events.foldl (nextStep interactive) initialStep ≤ 1 + (events.length : Int)
      ∧ nextStep true 1 leftArrow = 1 := by
  refine ⟨rfl, ?_, ?_, by decide⟩
  · exact (foldl_nextStep_bounds interactive events initialStep 0 (by decide) (by decide)).1
  · have := (foldl_nextStep_bounds interactive events initialStep 0 (by decide) (by decide)).2
    omega

end Tapsim
